import Mathlib

/-!
Verification of the sequence align-and-annotate engine
(`seqTools/alignAnnotate.py`): exact matching, mismatch-only
(Hamming) matching with a cutoff, indel-aware matching through an
external aligner, tie-breaking, reference-index construction and
output formatting.

Reference dictionaries are embedded as association lists
`List (String × String)`, recording the dictionary's iteration
order; dictionary keys are unique in Python, stated as a `Nodup`
hypothesis where it matters.  Python's `str()` of the numeric
fields (ints and `np.nan`) is embedded by `PyNum.str`.  Fallible
steps (the external aligner, `min` over an empty sequence) are
embedded in `Except String`.
-/

namespace AlignAnnotate

/-- Decimal digit character for `d` when `d < 10` (and `'0'` otherwise). -/
def digitChar : Nat → Char
  | 0 => '0'
  | 1 => '1'
  | 2 => '2'
  | 3 => '3'
  | 4 => '4'
  | 5 => '5'
  | 6 => '6'
  | 7 => '7'
  | 8 => '8'
  | 9 => '9'
  | _ => '0'

/-- Decimal digits of `n`, most significant first, prepended to `acc`;
structural recursion on a fuel bound (`n + 1` always suffices). -/
def natDigitsCore : Nat → Nat → List Char → List Char
  | 0, _, acc => acc
  | fuel + 1, n, acc =>
    if n < 10 then digitChar n :: acc
    else natDigitsCore fuel (n / 10) (digitChar (n % 10) :: acc)

/-- Python `str` of a non-negative integer. -/
def pyStrNat (n : Nat) : String :=
  ⟨natDigitsCore (n + 1) n []⟩

/-- Python `str` of an integer. -/
def pyStrInt (n : Int) : String :=
  if n < 0 then "-" ++ pyStrNat n.natAbs else pyStrNat n.natAbs

/-- A Python numeric value as fed to `str()` by the script:
either an `int` or `np.nan`. -/
inductive PyNum where
  | int : Int → PyNum
  | nan : PyNum
deriving DecidableEq

/-- Python `str()` on a `PyNum` (`str(np.nan) = "nan"`). -/
def PyNum.str : PyNum → String
  | .int n => pyStrInt n
  | .nan => "nan"

/-- `','.join(l)`. -/
def joinComma (l : List String) : String :=
  String.intercalate "," l

/-- `makeAnnotation` (alignAnnotate.py lines 22-28): join the seven
fields label, three counts, and the three comma-joined difference
lists with `':'`. -/
def makeAnnotation (label : String) (numMM numIn numDel : PyNum)
    (listMM listIn listDel : List String) : String :=
  String.intercalate ":"
    [label, numMM.str, numIn.str, numDel.str,
     joinComma listMM, joinComma listIn, joinComma listDel]

/-- The annotation returned for an unresolved query:
`makeAnnotation('NA', np.nan, np.nan, np.nan, [], [], [])`. -/
def naAnnot : String :=
  makeAnnotation "NA" .nan .nan .nan [] [] []

/-- Modelled from the spec: `seqlib.hamming` is not under `src/`; the
spec defines Hamming distance as the count of positions where two
equal-length sequences differ (gap characters in a gapped pair simply
count as mismatches, being ordinary characters). -/
def hammingL : List Char → List Char → Nat
  | [], _ => 0
  | _, [] => 0
  | c :: cs, d :: ds => (if c = d then 0 else 1) + hammingL cs ds

/-- Hamming distance on strings (position-wise over the common length). -/
def hamming (a b : String) : Nat :=
  hammingL a.data b.data

/-- Modelled from the spec: the position label for 0-based offset `i`
(spec §4.5): the `i`-th entry of the winning reference's position map
when non-sequential numbering is enabled (non-empty map), else the
plain offset from the configured start position. -/
def posLabel (startPos : Int) (refPos : List Int) (i : Nat) : Int :=
  match refPos with
  | [] => startPos + i
  | _ => refPos.getD i 0

/-- Modelled from the spec: `seqlib.findMismatches` is not under
`src/`; per spec §4.3 it lists each differing position of two
equal-length sequences as one entry carrying (position label,
observed base, reference base); the exact glyphs of the sub-format
are not fixed by the spec. -/
def findMismatches (q r : String) (startPos : Int) (refPos : List Int) :
    List String :=
  (List.range (min q.length r.length)).filterMap fun i =>
    let qc := q.data.getD i ' '
    let rc := r.data.getD i ' '
    if qc = rc then none
    else some (pyStrInt (posLabel startPos refPos i) ++
               String.singleton qc ++ String.singleton rc)

/-- Modelled from the spec: `seqlib.findMismatchesAndIndels` is not
under `src/`; per spec §4.4, over the winning gapped pair it extracts
mismatches (both sides non-gap and differing), insertions (reference
side is a gap) and deletions (query side is a gap), each entry
carrying the relabelled position and the bases involved. -/
def findMismatchesAndIndels (aq ar : String) (startPos : Int)
    (refPos : List Int) : List String × List String × List String :=
  let idx := List.range (min aq.length ar.length)
  let lMM := idx.filterMap fun i =>
    let qc := aq.data.getD i ' '
    let rc := ar.data.getD i ' '
    if qc ≠ '-' ∧ rc ≠ '-' ∧ qc ≠ rc then
      some (pyStrInt (posLabel startPos refPos i) ++
            String.singleton qc ++ String.singleton rc)
    else none
  let lIn := idx.filterMap fun i =>
    let qc := aq.data.getD i ' '
    let rc := ar.data.getD i ' '
    if rc = '-' ∧ qc ≠ '-' then
      some (pyStrInt (posLabel startPos refPos i) ++ String.singleton qc)
    else none
  let lDel := idx.filterMap fun i =>
    let qc := aq.data.getD i ' '
    let rc := ar.data.getD i ' '
    if qc = '-' ∧ rc ≠ '-' then
      some (pyStrInt (posLabel startPos refPos i) ++ String.singleton rc)
    else none
  (lMM, lIn, lDel)

/-- Python `min` over the values of a non-empty list (`min([])` raises,
embedded as `none`). -/
def pyMin : List Nat → Option Nat
  | [] => none
  | x :: xs => some (xs.foldl Nat.min x)

/-- Python dictionary lookup `d[k]` with a default for the (unreachable)
missing-key case. -/
def lookupD {α : Type} (d : List (String × α)) (k : String) (dflt : α) : α :=
  match d.find? (fun p => p.1 == k) with
  | some p => p.2
  | none => dflt

/-- Python `str.upper()` character-wise (queries and references are
upper-cased before matching). -/
def pyUpper (s : String) : String :=
  ⟨s.data.map Char.toUpper⟩

/-- The Hamming dictionary of the mismatch-only matcher
(alignAnnotate.py line 35): the query's distance to every reference
of the same length, in the reference dictionary's iteration order. -/
def hamDict (q : String) (refs : List (String × String)) :
    List (String × Nat) :=
  refs.filterMap fun p =>
    if q.length = p.2.length then some (p.1, hamming q p.2) else none

/-- `minHamRefIDs` (alignAnnotate.py line 42, line 74): the IDs whose
distance attains the minimum `m`, in iteration order. -/
def minHamIDs (hd : List (String × Nat)) (m : Nat) : List String :=
  (hd.filter fun p => p.2 == m).map Prod.fst

/-- `min(hamDict.values())` of the mismatch-only matcher. -/
def mmMinHam (q : String) (refs : List (String × String)) : Option Nat :=
  pyMin ((hamDict q refs).map Prod.snd)

/-- `matchID = minHamRefIDs[0]` of the mismatch-only matcher. -/
def mmMatchID (q : String) (refs : List (String × String)) (m : Nat) :
    String :=
  (minHamIDs (hamDict q refs) m).headD ""

/-- `alignAnnotateEachSeqMMonly` (alignAnnotate.py lines 32-60):
restrict to same-length references, take the minimum Hamming
distance, apply the cutoff, and annotate with the winner's mismatch
list; report `NA` when no reference has the query's length or the
minimum distance exceeds the cutoff. -/
def alignAnnotateEachSeqMMonly (q : String) (refs : List (String × String))
    (startPos : Int) (refPos : List (String × List Int)) (MMcutoff : Int) :
    String :=
  match mmMinHam q refs with
  | none => makeAnnotation "NA" .nan .nan .nan [] [] []
  | some minHam =>
    if (minHam : Int) ≤ MMcutoff then
      let matchID := mmMatchID q refs minHam
      let listMM := findMismatches q (lookupD refs matchID "") startPos
        (lookupD refPos matchID [])
      makeAnnotation matchID (.int minHam) (.int 0) (.int 0) listMM [] []
    else makeAnnotation "NA" .nan .nan .nan [] [] []

/-- The tie-warning condition of the mismatch-only matcher
(alignAnnotate.py lines 46-47): printed when the resolved branch is
taken and more than one reference attains the minimum distance. -/
def mmTieWarning (q : String) (refs : List (String × String))
    (MMcutoff : Int) : Bool :=
  match mmMinHam q refs with
  | none => false
  | some minHam =>
    (minHam : Int) ≤ MMcutoff ∧ 1 < (minHamIDs (hamDict q refs) minHam).length

/-- The Hamming dictionary over the aligned pairs of the indel-aware
matcher (alignAnnotate.py line 70). -/
def indelHamDict (al : List (String × (String × String))) :
    List (String × Nat) :=
  al.map fun p => (p.1, hamming p.2.1 p.2.2)

/-- The indel-aware matcher after all aligner calls succeeded
(alignAnnotate.py lines 69-83): minimum gapped Hamming distance over
all references, first winner, mismatch/insertion/deletion lists from
its gapped pair; `min([])` on an empty reference set raises. -/
def indelCore (al : List (String × (String × String))) (startPos : Int)
    (refPos : List (String × List Int)) : Except String String :=
  match pyMin ((indelHamDict al).map Prod.snd) with
  | none => .error "ValueError: min() arg is an empty sequence"
  | some minHam =>
    let matchID := (minHamIDs (indelHamDict al) minHam).headD ""
    let pair := lookupD al matchID ("", "")
    let mmid := findMismatchesAndIndels pair.1 pair.2 startPos
      (lookupD refPos matchID [])
    .ok ( makeAnnotation matchID (.int mmid.1.length) (.int mmid.2.1.length)
      (.int mmid.2.2.length) mmid.1 mmid.2.1 mmid.2.2)

/-- The tie-warning condition of the indel-aware matcher
(alignAnnotate.py lines 77-78). -/
def indelTieWarning (al : List (String × (String × String))) : Bool :=
  match pyMin ((indelHamDict al).map Prod.snd) with
  | none => false
  | some minHam => 1 < (minHamIDs (indelHamDict al) minHam).length

/-- `alignAnnotateEachSeqMMindels` (alignAnnotate.py lines 64-83):
align the query against every reference with the external aligner
(`seqlib.alignEmbossNeedle`, a collaborator that may fail), then run
the core selection; an aligner exception propagates. -/
def alignAnnotateEachSeqMMindels
    (align : String → String → Except String (String × String))
    (q : String) (refs : List (String × String)) (startPos : Int)
    (refPos : List (String × List Int)) : Except String String := do
  let al ← refs.mapM fun p => do
    let pair ← align q p.2
    pure (p.1, pair)
  indelCore al startPos refPos

/-- The effective mismatch cutoff (alignAnnotate.py lines 97-98):
`if not MMcutoff: MMcutoff = len(querySeq)` — Python treats both
`None` (unconfigured) and `0` as falsy. -/
def effCutoff (MMcutoff : Option Int) (q : String) : Int :=
  match MMcutoff with
  | none => q.length
  | some c => if c = 0 then (q.length : Int) else c

/-- `alignAnnotateEachSeq` (alignAnnotate.py lines 88-103): exact scan
with early return, then dispatch on the mode. -/
def alignAnnotateEachSeq
    (align : String → String → Except String (String × String))
    (q : String) (refs : List (String × String)) (startPos : Int)
    (refPos : List (String × List Int)) (MMcutoff : Option Int)
    (indelMode : Bool) : Except String String :=
  match refs.find? (fun p => p.2 == q) with
  | some p => .ok ( makeAnnotation p.1 (.int 0) (.int 0) (.int 0) [] [] [])
  | none =>
    if indelMode then alignAnnotateEachSeqMMindels align q refs startPos refPos
    else .ok (alignAnnotateEachSeqMMonly q refs startPos refPos
      (effCutoff MMcutoff q))

/-- Python dictionary assignment `d[k] = v`: replace the value at an
existing key, else append the binding. -/
def dictInsert {α : Type} : List (String × α) → String → α →
    List (String × α)
  | [], k, v => [(k, v)]
  | (k', v') :: d, k, v =>
    if k' == k then (k', v) :: d else (k', v') :: dictInsert d k v

/-- The reference-index construction loop of `main`
(alignAnnotate.py lines 127-138): successive dictionary assignments
`refSeqsDict[record.id] = str(record.seq.upper())`. -/
def buildRefIndex (records : List (String × String)) :
    List (String × String) :=
  records.foldl (fun d p => dictInsert d p.1 p.2) []

/-- Python dictionary membership lookup, as an `Option`. -/
def pyLookup {α : Type} (d : List (String × α)) (k : String) : Option α :=
  (d.find? fun p => p.1 == k).map Prod.snd

/-- The single-core branch of `main` (alignAnnotate.py line 146):
`allQuerySeqs['seq'].str.upper().apply(alignAnnotateEachSeq, ...)` —
one annotation per row, in row order; an exception propagates. -/
def mainAnnots (align : String → String → Except String (String × String))
    (queries : List String) (refs : List (String × String)) (startPos : Int)
    (refPos : List (String × List Int)) (MMcutoff : Option Int)
    (indelMode : Bool) : Except String (List String) :=
  queries.mapM fun s =>
    alignAnnotateEachSeq align (pyUpper s) refs startPos refPos MMcutoff
      indelMode

/-- The multiprocessing branch of `main` (alignAnnotate.py line 149):
`Parallel(...)(delayed(alignAnnotateEachSeq)(seq.upper(), ...) for seq
in allQuerySeqs['seq'])`; joblib collects the per-query results in
input order, so the collected list is embedded the same way. -/
def mainAnnotsPar
    (align : String → String → Except String (String × String))
    (queries : List String) (refs : List (String × String)) (startPos : Int)
    (refPos : List (String × List Int)) (MMcutoff : Option Int)
    (indelMode : Bool) : Except String (List String) :=
  queries.mapM fun s =>
    alignAnnotateEachSeq align (pyUpper s) refs startPos refPos MMcutoff
      indelMode

/-- The count-appending step of `main` (alignAnnotate.py lines 152-156):
with count mode, `allAnnotations + ':' + counts.map(str)` row-wise;
without, `allAnnotations + ':'`. -/
def appendCounts (anns : List String) (countMode : Bool)
    (counts : List Int) : List String :=
  if countMode then anns.zipWith (fun a c => a ++ ":" ++ pyStrInt c) counts
  else anns.map (fun a => a ++ ":")

/-- The value of the last record carrying a given ID, if any;
specification device for the overwrite semantics of the index build. -/
def lastVal {α : Type} : List (String × α) → String → Option α
  | [], _ => none
  | p :: rest, k =>
    match lastVal rest k with
    | some v => some v
    | none => if p.1 == k then some p.2 else none

/-- A trivially succeeding aligner, used to instantiate theorems. -/
def okAlign : String → String → Except String (String × String) :=
  fun a b => .ok (a, b)

/-- An always-failing aligner, used to exhibit aligner failures. -/
def badAlign : String → String → Except String (String × String) :=
  fun _ _ => .error "aligner failed"

/-! ## Helper lemmas -/

theorem digitChar_isDigit (k : Nat) : (digitChar k).isDigit = true := by
  rcases k with _|_|_|_|_|_|_|_|_|_|k <;> rfl

theorem natDigitsCore_shape (fuel : Nat) :
    ∀ n acc, ∃ d t, natDigitsCore (fuel + 1) n acc = d :: t ∧
      d.isDigit = true := by
  induction fuel with
  | zero =>
    intro n acc
    unfold natDigitsCore
    split
    · exact ⟨digitChar n, acc, rfl, digitChar_isDigit n⟩
    · exact ⟨digitChar (n % 10), acc, rfl, digitChar_isDigit (n % 10)⟩
  | succ fuel ih =>
    intro n acc
    unfold natDigitsCore
    split
    · exact ⟨digitChar n, acc, rfl, digitChar_isDigit n⟩
    · exact ih (n / 10) (digitChar (n % 10) :: acc)

theorem pyStrInt_has_digit (n : Int) :
    ∃ c, c ∈ (pyStrInt n).data ∧ c.isDigit = true := by
  obtain ⟨d, t, hshape, hdig⟩ := natDigitsCore_shape n.natAbs n.natAbs []
  unfold pyStrInt pyStrNat
  split
  · exact ⟨d, by simp [hshape], hdig⟩
  · exact ⟨d, by simp [hshape], hdig⟩

theorem makeAnnotation_split (label : String) (n1 n2 n3 : PyNum)
    (l1 l2 l3 : List String) :
    makeAnnotation label n1 n2 n3 l1 l2 l3 =
      label ++ ":" ++ n1.str ++ ":" ++ n2.str ++ ":" ++ n3.str ++ ":" ++
        joinComma l1 ++ ":" ++ joinComma l2 ++ ":" ++ joinComma l3 := rfl

theorem intFields_ne_naAnnot (label : String) (a b c : Int)
    (l1 l2 l3 : List String) :
    makeAnnotation label (.int a) (.int b) (.int c) l1 l2 l3 ≠ naAnnot := by
  intro h
  obtain ⟨ch, hmem, hdig⟩ := pyStrInt_has_digit a
  have hch : ch ∈ ( makeAnnotation label (.int a) (.int b) (.int c)
      l1 l2 l3).data := by
    rw [ makeAnnotation_split]
    simp only [String.data_append, List.mem_append]
    left; left; left; left; left; left; left; left; left; left
    exact Or.inr hmem
  rw [h] at hch
  have hna : ∀ x ∈ naAnnot.data, x.isDigit = false := by decide
  have := hna ch hch
  rw [hdig] at this
  exact Bool.noConfusion this

theorem pyMin_spec : ∀ (l : List Nat) (m : Nat), pyMin l = some m →
    m ∈ l ∧ ∀ y ∈ l, m ≤ y := by
  have core : ∀ (xs : List Nat) (x : Nat),
      xs.foldl Nat.min x ∈ x :: xs ∧ ∀ y ∈ x :: xs, xs.foldl Nat.min x ≤ y := by
    intro xs
    induction xs with
    | nil => intro x; exact ⟨by simp, by simp⟩
    | cons a as ih =>
      intro x
      have h := ih (Nat.min x a)
      rw [List.foldl_cons]
      constructor
      · have h1 := h.1
        rw [List.mem_cons] at h1
        rcases h1 with h1 | h1
        · rw [h1]
          rcases Nat.le_total x a with hle | hle
          · have hx : Nat.min x a = x := Nat.min_eq_left hle
            rw [hx]; exact List.mem_cons_self _ _
          · have hx : Nat.min x a = a := Nat.min_eq_right hle
            rw [hx]
            exact List.mem_cons_of_mem _ (List.mem_cons_self _ _)
        · exact List.mem_cons_of_mem _ (List.mem_cons_of_mem _ h1)
      · intro y hy
        rw [List.mem_cons, List.mem_cons] at hy
        have hmin : as.foldl Nat.min (Nat.min x a) ≤ Nat.min x a :=
          h.2 _ (List.mem_cons_self _ _)
        rcases hy with rfl | rfl | hy
        · exact Nat.le_trans hmin (Nat.min_le_left _ _)
        · exact Nat.le_trans hmin (Nat.min_le_right _ _)
        · exact h.2 _ (List.mem_cons_of_mem _ hy)
  intro l m hl
  cases l with
  | nil => exact absurd hl (by simp [pyMin])
  | cons x xs =>
    have hm : xs.foldl Nat.min x = m := by
      simpa [pyMin] using hl
    rw [← hm]
    exact core xs x

theorem pyMin_eq_none (l : List Nat) : pyMin l = none ↔ l = [] := by
  cases l <;> simp [pyMin]

theorem nodup_keys_val {α : Type} (l : List (String × α)) (k : String)
    (v1 v2 : α) (hnd : (l.map Prod.fst).Nodup) (h1 : (k, v1) ∈ l)
    (h2 : (k, v2) ∈ l) : v1 = v2 := by
  induction l with
  | nil => cases h1
  | cons p rest ih =>
    rw [List.map_cons, List.nodup_cons] at hnd
    rw [List.mem_cons] at h1 h2
    rcases h1 with h1 | h1 <;> rcases h2 with h2 | h2
    · rw [← h1] at h2
      exact ((Prod.mk.injEq _ _ _ _ ▸ h2).2).symm
    · exact absurd (List.mem_map_of_mem Prod.fst h2)
        (by rw [← h1] at hnd; exact hnd.1)
    · exact absurd (List.mem_map_of_mem Prod.fst h1)
        (by rw [← h2] at hnd; exact hnd.1)
    · exact ih hnd.2 h1 h2

theorem except_bind_ok {β γ : Type} (b : β) (g : β → Except String γ) :
    ((Except.ok b : Except String β) >>= g) = g b := rfl

theorem except_bind_error {β γ : Type} (e : String)
    (g : β → Except String γ) :
    ((Except.error e : Except String β) >>= g) = Except.error e := rfl

theorem except_pure {β : Type} (b : β) :
    (pure b : Except String β) = Except.ok b := rfl

theorem exceptMapM_ok {α β : Type} (f : α → Except String β) (da : α)
    (db : β) : ∀ (l : List α) (r : List β), l.mapM f = .ok r →
      r.length = l.length ∧
      ∀ i, i < l.length → f (l.getD i da) = .ok (r.getD i db) := by
  intro l
  induction l with
  | nil =>
    intro r h
    rw [List.mapM_nil] at h
    rw [except_pure] at h
    injection h with h
    subst h
    exact ⟨rfl, fun i hi => absurd hi (by simp)⟩
  | cons a as ih =>
    intro r h
    rw [List.mapM_cons] at h
    cases hfa : f a with
    | error e =>
      rw [hfa, except_bind_error] at h
      exact Except.noConfusion h
    | ok b =>
      rw [hfa, except_bind_ok] at h
      cases hmas : as.mapM f with
      | error e =>
        rw [hmas, except_bind_error] at h
        exact Except.noConfusion h
      | ok bs =>
        rw [hmas, except_bind_ok, except_pure] at h
        injection h with h
        subst h
        obtain ⟨hlen, hidx⟩ := ih bs hmas
        refine ⟨by simp [hlen], fun i hi => ?_⟩
        cases i with
        | zero => simpa using hfa
        | succ j =>
          have hj : j < as.length := by
            simpa [Nat.succ_lt_succ_iff] using hi
          simpa using hidx j hj

theorem exceptMapM_error {α β : Type} (f : α → Except String β) (x : α)
    (e : String) : ∀ (l : List α), x ∈ l → f x = .error e →
      ∃ e', l.mapM f = .error e' := by
  intro l
  induction l with
  | nil => intro h; cases h
  | cons a as ih =>
    intro hmem hfx
    rw [List.mem_cons] at hmem
    rw [List.mapM_cons]
    cases hfa : f a with
    | error e'' => exact ⟨e'', by rw [except_bind_error]⟩
    | ok b =>
      rcases hmem with rfl | hmem
      · rw [hfa] at hfx; exact Except.noConfusion hfx
      · obtain ⟨e', he'⟩ := ih hmem hfx
        refine ⟨e', ?_⟩
        rw [except_bind_ok, he', except_bind_error]

theorem exceptMapM_total {α β : Type} (f : α → Except String β) :
    ∀ (l : List α), (∀ x ∈ l, ∃ y, f x = .ok y) →
      ∃ r, l.mapM f = .ok r := by
  intro l
  induction l with
  | nil => intro _; exact ⟨[], by rw [List.mapM_nil, except_pure]⟩
  | cons a as ih =>
    intro hall
    obtain ⟨b, hb⟩ := hall a (List.mem_cons_self _ _)
    obtain ⟨bs, hbs⟩ := ih fun x hx => hall x (List.mem_cons_of_mem _ hx)
    refine ⟨b :: bs, ?_⟩
    rw [List.mapM_cons, hb, except_bind_ok, hbs, except_bind_ok, except_pure]

theorem dictInsert_lookup {α : Type} (k' : String) (v : α) (k : String) :
    ∀ (d : List (String × α)),
      pyLookup (dictInsert d k' v) k =
        if k' == k then some v else pyLookup d k := by
  intro d
  induction d with
  | nil =>
    by_cases h : k' == k <;> simp [dictInsert, pyLookup, List.find?, h]
  | cons p rest ih =>
    by_cases hpk : p.1 == k'
    · have hpk' : p.1 = k' := by simpa using hpk
      by_cases hkk : k' == k
      · have : k' = k := by simpa using hkk
        simp [dictInsert, hpk, pyLookup, List.find?, hpk', this]
      · simp only [dictInsert, hpk, if_pos]
        have hne : (p.1 == k) = false := by
          subst hpk'
          simpa using hkk
        simp [pyLookup, List.find?, hne, hkk]
    · simp only [dictInsert, hpk, if_neg, Bool.not_eq_true]
      by_cases hp1 : p.1 == k
      · have hne : k' ≠ k := by
          intro he
          apply hpk
          have : p.1 = k := by simpa using hp1
          simp [this, he]
        simp [pyLookup, List.find?, hp1, hne]
      · simp only [pyLookup, List.find?, hp1]
        have := ih
        simp only [pyLookup] at this
        rw [this]

theorem buildRefIndex_core (k : String) :
    ∀ (records : List (String × String)) (acc : List (String × String)),
      pyLookup (records.foldl (fun d p => dictInsert d p.1 p.2) acc) k =
        (lastVal records k).or (pyLookup acc k) := by
  intro records
  induction records with
  | nil => intro acc; simp [lastVal, Option.or]
  | cons p rest ih =>
    intro acc
    rw [List.foldl_cons]
    rw [ih (dictInsert acc p.1 p.2)]
    rw [dictInsert_lookup]
    show _ = (lastVal (p :: rest) k).or (pyLookup acc k)
    cases hlv : lastVal rest k with
    | some v =>
      have h2 : lastVal (p :: rest) k = some v := by
        simp only [lastVal, hlv]
      rw [h2]
      rfl
    | none =>
      have h2 : lastVal (p :: rest) k =
          if (p.1 == k) = true then some p.2 else none := by
        simp only [lastVal, hlv]
      rw [h2]
      by_cases hpk : (p.1 == k) = true
      · simp only [if_pos hpk]
        rfl
      · simp only [if_neg hpk]

theorem headD_mem {α : Type} (d : α) :
    ∀ (l : List α), l ≠ [] → l.headD d ∈ l := by
  intro l h
  cases l with
  | nil => exact absurd rfl h
  | cons a t => exact List.mem_cons_self _ _

theorem mem_minHamIDs {hd : List (String × Nat)} {m : Nat} {id : String}
    (h : id ∈ minHamIDs hd m) : (id, m) ∈ hd := by
  unfold minHamIDs at h
  rw [List.mem_map] at h
  obtain ⟨p, hp, hfst⟩ := h
  rw [List.mem_filter] at hp
  have hsnd : p.2 = m := by simpa using hp.2
  have : p = (id, m) := by
    cases p
    simp only [Prod.mk.injEq]
    exact ⟨hfst, hsnd⟩
  rw [← this]
  exact hp.1

theorem minHamIDs_ne_nil {hd : List (String × Nat)} {m : Nat}
    (h : pyMin (hd.map Prod.snd) = some m) : minHamIDs hd m ≠ [] := by
  obtain ⟨hmem, _⟩ := pyMin_spec _ _ h
  rw [List.mem_map] at hmem
  obtain ⟨p, hp, hsnd⟩ := hmem
  intro hnil
  have : p ∈ hd.filter (fun p => p.2 == m) := by
    rw [List.mem_filter]
    exact ⟨hp, by simp [hsnd]⟩
  have : p.1 ∈ minHamIDs hd m := by
    unfold minHamIDs
    exact List.mem_map_of_mem _ this
  rw [hnil] at this
  cases this

theorem winner_mem {hd : List (String × Nat)} {m : Nat}
    (h : pyMin (hd.map Prod.snd) = some m) :
    ((minHamIDs hd m).headD "", m) ∈ hd :=
  mem_minHamIDs (headD_mem _ _ (minHamIDs_ne_nil h))

theorem mem_hamDict {q : String} {refs : List (String × String)}
    {p : String × Nat} (h : p ∈ hamDict q refs) :
    ∃ s, (p.1, s) ∈ refs ∧ q.length = s.length ∧ p.2 = hamming q s := by
  unfold hamDict at h
  rw [List.mem_filterMap] at h
  obtain ⟨r, hr, hmk⟩ := h
  by_cases hlen : q.length = r.2.length
  · rw [if_pos hlen] at hmk
    injection hmk with hmk
    subst hmk
    exact ⟨r.2, by simpa using hr, hlen, rfl⟩
  · rw [if_neg hlen] at hmk
    exact Option.noConfusion hmk

theorem lookupD_of_mem {α : Type} (l : List (String × α)) (k : String)
    (v : α) (d : α) (hnd : (l.map Prod.fst).Nodup) (hmem : (k, v) ∈ l) :
    lookupD l k d = v := by
  unfold lookupD
  cases hfind : l.find? (fun p => p.1 == k) with
  | none =>
    have := List.find?_eq_none.mp hfind (k, v) hmem
    simp at this
  | some p =>
    have hp1 : p.1 = k := by simpa using List.find?_some hfind
    have hpmem := List.mem_of_find?_eq_some hfind
    have hkp : (k, p.2) ∈ l := by
      rw [← hp1]
      simpa using hpmem
    exact nodup_keys_val l k p.2 v hnd hkp hmem

theorem mmOnly_none (q : String) (refs : List (String × String))
    (startPos : Int) (refPos : List (String × List Int)) (cutoff : Int)
    (h : mmMinHam q refs = none) :
    alignAnnotateEachSeqMMonly q refs startPos refPos cutoff = naAnnot := by
  unfold alignAnnotateEachSeqMMonly
  rw [h]
  rfl

theorem mmOnly_resolved (q : String) (refs : List (String × String))
    (startPos : Int) (refPos : List (String × List Int)) (cutoff : Int)
    (m : Nat) (h : mmMinHam q refs = some m) (hcut : (m : Int) ≤ cutoff) :
    alignAnnotateEachSeqMMonly q refs startPos refPos cutoff =
      makeAnnotation (mmMatchID q refs m) (.int m) (.int 0) (.int 0)
        (findMismatches q (lookupD refs (mmMatchID q refs m) "") startPos
          (lookupD refPos (mmMatchID q refs m) [])) [] [] := by
  unfold alignAnnotateEachSeqMMonly
  simp only [h]
  rw [if_pos hcut]

theorem mmOnly_cutoff (q : String) (refs : List (String × String))
    (startPos : Int) (refPos : List (String × List Int)) (cutoff : Int)
    (m : Nat) (h : mmMinHam q refs = some m) (hcut : ¬(m : Int) ≤ cutoff) :
    alignAnnotateEachSeqMMonly q refs startPos refPos cutoff = naAnnot := by
  unfold alignAnnotateEachSeqMMonly
  simp only [h]
  rw [if_neg hcut]
  rfl

theorem indelCore_ok (al : List (String × (String × String)))
    (startPos : Int) (refPos : List (String × List Int)) (m : Nat)
    (h : pyMin ((indelHamDict al).map Prod.snd) = some m) :
    indelCore al startPos refPos =
      .ok ( makeAnnotation ((minHamIDs (indelHamDict al) m).headD "")
        (.int (findMismatchesAndIndels
          (lookupD al ((minHamIDs (indelHamDict al) m).headD "")
            ("", "")).1
          (lookupD al ((minHamIDs (indelHamDict al) m).headD "")
            ("", "")).2
          startPos
          (lookupD refPos ((minHamIDs (indelHamDict al) m).headD "")
            [])).1.length)
        (.int (findMismatchesAndIndels
          (lookupD al ((minHamIDs (indelHamDict al) m).headD "")
            ("", "")).1
          (lookupD al ((minHamIDs (indelHamDict al) m).headD "")
            ("", "")).2
          startPos
          (lookupD refPos ((minHamIDs (indelHamDict al) m).headD "")
            [])).2.1.length)
        (.int (findMismatchesAndIndels
          (lookupD al ((minHamIDs (indelHamDict al) m).headD "")
            ("", "")).1
          (lookupD al ((minHamIDs (indelHamDict al) m).headD "")
            ("", "")).2
          startPos
          (lookupD refPos ((minHamIDs (indelHamDict al) m).headD "")
            [])).2.2.length)
        (findMismatchesAndIndels
          (lookupD al ((minHamIDs (indelHamDict al) m).headD "")
            ("", "")).1
          (lookupD al ((minHamIDs (indelHamDict al) m).headD "")
            ("", "")).2
          startPos
          (lookupD refPos ((minHamIDs (indelHamDict al) m).headD "")
            [])).1
        (findMismatchesAndIndels
          (lookupD al ((minHamIDs (indelHamDict al) m).headD "")
            ("", "")).1
          (lookupD al ((minHamIDs (indelHamDict al) m).headD "")
            ("", "")).2
          startPos
          (lookupD refPos ((minHamIDs (indelHamDict al) m).headD "")
            [])).2.1
        (findMismatchesAndIndels
          (lookupD al ((minHamIDs (indelHamDict al) m).headD "")
            ("", "")).1
          (lookupD al ((minHamIDs (indelHamDict al) m).headD "")
            ("", "")).2
          startPos
          (lookupD refPos ((minHamIDs (indelHamDict al) m).headD "")
            [])).2.2) := by
  unfold indelCore
  simp only [h]

/-! ## Claims -/

/-- C1: a query byte-identical to some reference is annotated with that
reference's ID and zero mismatches, insertions and deletions (empty
difference lists), independently of the aligner, the cutoff and the
mode — neither approximate matcher is consulted. -/
theorem claim1_exact_match (q : String) (refs : List (String × String))
    (startPos : Int) (refPos : List (String × List Int))
    (hex : ∃ r, (r, q) ∈ refs) :
    ∃ r, (r, q) ∈ refs ∧
      ∀ (align : String → String → Except String (String × String))
        (MMcutoff : Option Int) (indelMode : Bool),
        alignAnnotateEachSeq align q refs startPos refPos MMcutoff indelMode
          = .ok ( makeAnnotation r (.int 0) (.int 0) (.int 0) [] [] []) := by
  obtain ⟨r0, hr0⟩ := hex
  cases hfind : refs.find? (fun p => p.2 == q) with
  | none =>
    have := List.find?_eq_none.mp hfind (r0, q) hr0
    simp at this
  | some p =>
    have hp2 : p.2 = q := by
      have := List.find?_some hfind
      simpa using this
    have hpmem : p ∈ refs := List.mem_of_find?_eq_some hfind
    refine ⟨p.1, ?_, ?_⟩
    · rw [← hp2]
      simpa using hpmem
    · intro align MMcutoff indelMode
      unfold alignAnnotateEachSeq
      rw [hfind]

/-- Witness for C1 at a concrete exact hit. -/
theorem claim1_witness :
    ∃ r, (r, "ACGT") ∈ [("r1", "ACGT"), ("r2", "AAAA")] ∧
      ∀ (align : String → String → Except String (String × String))
        (MMcutoff : Option Int) (indelMode : Bool),
        alignAnnotateEachSeq align "ACGT" [("r1", "ACGT"), ("r2", "AAAA")]
          1 [] MMcutoff indelMode
          = .ok ( makeAnnotation r (.int 0) (.int 0) (.int 0) [] [] []) :=
  claim1_exact_match "ACGT" [("r1", "ACGT"), ("r2", "AAAA")] 1 []
    ⟨"r1", by decide⟩

/-- C5 counterexample: building the index from records sharing the ID
`"A"` silently produces an index in which the later record's sequence
overwrote the earlier one — no `DuplicateReferenceID` failure exists
in the build loop. -/
theorem claim5_counterexample :
    buildRefIndex [("A", "AC"), ("A", "GG")] = [("A", "GG")] ∧
    pyLookup (buildRefIndex [("A", "AC"), ("A", "GG")]) "A" = some "GG" := by
  exact ⟨rfl, rfl⟩

/-- C5 amended: the index build never fails; for every ID the entry
kept is the sequence of the last record carrying that ID. -/
theorem claim5_last_wins (records : List (String × String)) (k : String) :
    pyLookup (buildRefIndex records) k = lastVal records k := by
  unfold buildRefIndex
  rw [buildRefIndex_core]
  cases lastVal records k <;> rfl

/-- C8: the formatter serializes the seven colon-joined fields — label,
three counts, three comma-joined lists — and an unresolved result
carries `"NA"` with the marker `"nan"` (not `"0"`) in each count
field. -/
theorem claim8_formatter (label : String) (n1 n2 n3 : PyNum)
    (l1 l2 l3 : List String) :
    makeAnnotation label n1 n2 n3 l1 l2 l3 =
      label ++ ":" ++ n1.str ++ ":" ++ n2.str ++ ":" ++ n3.str ++ ":" ++
        joinComma l1 ++ ":" ++ joinComma l2 ++ ":" ++ joinComma l3 ∧
    naAnnot = "NA" ++ ":" ++ PyNum.nan.str ++ ":" ++ PyNum.nan.str ++ ":" ++
      PyNum.nan.str ++ ":" ++ joinComma [] ++ ":" ++ joinComma [] ++ ":" ++
      joinComma [] ∧
    naAnnot = "NA:nan:nan:nan:::" ∧
    PyNum.nan.str = "nan" ∧ PyNum.nan.str ≠ "0" := by
  refine ⟨ makeAnnotation_split label n1 n2 n3 l1 l2 l3, rfl, rfl, rfl, ?_⟩
  decide

/-- C9: a configured mismatch cutoff of `0` is falsy in Python, so it is
replaced by the query length exactly as an absent cutoff is: the two
configurations produce identical results in mismatch-only mode. -/
theorem claim9_zero_cutoff
    (align : String → String → Except String (String × String))
    (q : String) (refs : List (String × String)) (startPos : Int)
    (refPos : List (String × List Int)) :
    alignAnnotateEachSeq align q refs startPos refPos (some 0) false =
      alignAnnotateEachSeq align q refs startPos refPos none false := by
  unfold alignAnnotateEachSeq effCutoff
  norm_num

/-- C10: without count mode every written annotation gets an empty
final field appended, hence ends in `':'`; with count mode the final
colon-delimited field is the row's count. -/
theorem claim10_trailing_colon (anns : List String) (counts : List Int) :
    (appendCounts anns false counts).length = anns.length ∧
    (∀ i, i < anns.length →
      (appendCounts anns false counts).getD i "" = anns.getD i "" ++ ":" ∧
      ((appendCounts anns false counts).getD i "").data.getLast?
        = some ':') ∧
    (∀ i, i < anns.length → i < counts.length →
      (appendCounts anns true counts).getD i "" =
        anns.getD i "" ++ ":" ++ pyStrInt (counts.getD i 0)) := by
  refine ⟨by simp [appendCounts], fun i hi => ?_, fun i hi hic => ?_⟩
  · have h1 : (appendCounts anns false counts).getD i ""
        = anns.getD i "" ++ ":" := by
      simp only [appendCounts, if_neg Bool.false_ne_true]
      rw [List.getD_eq_getElem?_getD, List.getElem?_map,
        List.getElem?_eq_getElem hi, List.getD_eq_getElem?_getD,
        List.getElem?_eq_getElem hi]
      rfl
    refine ⟨h1, ?_⟩
    rw [h1, String.data_append]
    exact List.getLast?_concat _
  · simp only [appendCounts, if_pos]
    rw [List.getD_eq_getElem?_getD, List.getElem?_zipWith,
      List.getElem?_eq_getElem hi, List.getElem?_eq_getElem hic,
      List.getD_eq_getElem?_getD, List.getElem?_eq_getElem hi,
      List.getD_eq_getElem?_getD, List.getElem?_eq_getElem hic]
    rfl

/-- Witness for C10 at a concrete batch. -/
theorem claim10_witness :
    (appendCounts ["a:1:0:0:x::", "NA:nan:nan:nan:::"] false [7, 8]).length
        = 2 ∧
    (∀ i, i < 2 →
      (appendCounts ["a:1:0:0:x::", "NA:nan:nan:nan:::"] false [7, 8]).getD
          i "" =
        (["a:1:0:0:x::", "NA:nan:nan:nan:::"].getD i "") ++ ":" ∧
      ((appendCounts ["a:1:0:0:x::", "NA:nan:nan:nan:::"] false
        [7, 8]).getD i "").data.getLast? = some ':') ∧
    (∀ i, i < 2 → i < 2 →
      (appendCounts ["a:1:0:0:x::", "NA:nan:nan:nan:::"] true [7, 8]).getD
          i "" =
        (["a:1:0:0:x::", "NA:nan:nan:nan:::"].getD i "") ++ ":" ++
          pyStrInt ([7, 8].getD i 0)) := by
  have h := claim10_trailing_colon ["a:1:0:0:x::", "NA:nan:nan:nan:::"]
    [7, 8]
  simpa using h

/-- C2: with no exact hit, the mismatch-only mode reports `NA` exactly
when no reference has the query's length or the minimum Hamming
distance exceeds the effective cutoff (query length when the cutoff is
unconfigured); the indel-aware mode, whose aligner calls succeed on a
non-empty reference set, always produces a resolved annotation. -/
theorem claim2_unresolved_iff
    (align : String → String → Except String (String × String))
    (q : String) (refs : List (String × String)) (startPos : Int)
    (refPos : List (String × List Int)) (MMcutoff : Option Int)
    (hne : ∀ p ∈ refs, p.2 ≠ q)
    (hal : ∀ p ∈ refs, ∃ pr, align q p.2 = .ok pr)
    (hrefs : refs ≠ []) :
    (alignAnnotateEachSeq align q refs startPos refPos MMcutoff false
        = .ok naAnnot ↔
      hamDict q refs = [] ∨
        ∃ m, mmMinHam q refs = some m ∧ effCutoff MMcutoff q < (m : Int)) ∧
    (∃ s, alignAnnotateEachSeq align q refs startPos refPos MMcutoff true
        = .ok s ∧ s ≠ naAnnot) := by
  have hfind : refs.find? (fun p => p.2 == q) = none := by
    rw [List.find?_eq_none]
    intro p hp
    simpa using hne p hp
  constructor
  · unfold alignAnnotateEachSeq
    rw [hfind]
    simp only [if_neg Bool.false_ne_true, Except.ok.injEq]
    cases hmin : mmMinHam q refs with
    | none =>
      rw [mmOnly_none q refs startPos refPos _ hmin]
      unfold mmMinHam at hmin
      rw [pyMin_eq_none] at hmin
      rw [List.map_eq_nil_iff] at hmin
      exact ⟨fun _ => Or.inl hmin, fun _ => rfl⟩
    | some m =>
      have hne_nil : hamDict q refs ≠ [] := by
        intro h0
        unfold mmMinHam at hmin
        rw [h0] at hmin
        exact Option.noConfusion ((pyMin_eq_none []).mpr rfl ▸ hmin)
      by_cases hcut : (m : Int) ≤ effCutoff MMcutoff q
      · rw [mmOnly_resolved q refs startPos refPos _ m hmin hcut]
        constructor
        · intro hres
          exact absurd hres (intFields_ne_naAnnot _ _ _ _ _ _ _)
        · intro hdisj
          rcases hdisj with h0 | ⟨m', hm', hgt⟩
          · exact absurd h0 hne_nil
          · injection hm' with hm'
            subst hm'
            omega
      · rw [mmOnly_cutoff q refs startPos refPos _ m hmin hcut]
        exact ⟨fun _ => Or.inr ⟨m, rfl, by omega⟩, fun _ => rfl⟩
  · unfold alignAnnotateEachSeq
    rw [hfind]
    simp only [if_pos]
    unfold alignAnnotateEachSeqMMindels
    obtain ⟨al, hal'⟩ := exceptMapM_total
      (fun p => do
        let pair ← align q p.2
        pure (p.1, pair))
      refs
      (fun p hp => by
        obtain ⟨pr, hpr⟩ := hal p hp
        refine ⟨(p.1, pr), ?_⟩
        show align q p.2 >>= (fun pair => pure (p.1, pair))
          = Except.ok (p.1, pr)
        rw [hpr, except_bind_ok, except_pure])
    rw [hal', except_bind_ok]
    obtain ⟨hlen, _⟩ := exceptMapM_ok _ ("", "") ("", ("", "")) refs al hal'
    have hal_ne : al ≠ [] := by
      intro h0
      rw [h0] at hlen
      cases refs with
      | nil => exact hrefs rfl
      | cons a as => simp at hlen
    cases hpm : pyMin ((indelHamDict al).map Prod.snd) with
    | none =>
      exfalso
      rw [pyMin_eq_none, List.map_eq_nil_iff] at hpm
      unfold indelHamDict at hpm
      rw [List.map_eq_nil_iff] at hpm
      exact hal_ne hpm
    | some m' =>
      exact ⟨_, indelCore_ok al startPos refPos m' hpm,
        intFields_ne_naAnnot _ _ _ _ _ _ _⟩

/-- Witness for C2 at a concrete configuration with no same-length
reference in mismatch-only mode. -/
theorem claim2_witness :
    (alignAnnotateEachSeq okAlign "ACGT" [("r1", "AC")] 1 [] none false
        = .ok naAnnot ↔
      hamDict "ACGT" [("r1", "AC")] = [] ∨
        ∃ m, mmMinHam "ACGT" [("r1", "AC")] = some m ∧
          effCutoff none "ACGT" < (m : Int)) ∧
    (∃ s, alignAnnotateEachSeq okAlign "ACGT" [("r1", "AC")] 1 [] none true
        = .ok s ∧ s ≠ naAnnot) :=
  claim2_unresolved_iff okAlign "ACGT" [("r1", "AC")] 1 [] none
    (by decide) (fun p _ => ⟨("ACGT", p.2), rfl⟩) (by decide)

/-- C3: in mismatch-only mode a reference whose length differs from the
query's is never the selected match: the winner, whenever one exists,
is drawn from the same-length Hamming dictionary, and every resolved
annotation is built from that winner and a same-length reference. -/
theorem claim3_length_restriction (q : String)
    (refs : List (String × String)) (startPos : Int)
    (refPos : List (String × List Int)) (cutoff : Int) (r s : String)
    (hnd : (refs.map Prod.fst).Nodup) (hmem : (r, s) ∈ refs)
    (hlen : s.length ≠ q.length) :
    (∀ m, mmMinHam q refs = some m → mmMatchID q refs m ≠ r) ∧
    (alignAnnotateEachSeqMMonly q refs startPos refPos cutoff = naAnnot ∨
      ∃ m, mmMinHam q refs = some m ∧ (m : Int) ≤ cutoff ∧
        (lookupD refs (mmMatchID q refs m) "").length = q.length ∧
        alignAnnotateEachSeqMMonly q refs startPos refPos cutoff =
          makeAnnotation (mmMatchID q refs m) (.int m) (.int 0) (.int 0)
            (findMismatches q (lookupD refs (mmMatchID q refs m) "")
              startPos (lookupD refPos (mmMatchID q refs m) [])) [] []) := by
  have hwinner : ∀ m, mmMinHam q refs = some m →
      ∃ s', (mmMatchID q refs m, s') ∈ refs ∧ q.length = s'.length ∧
        lookupD refs (mmMatchID q refs m) "" = s' := by
    intro m hm
    unfold mmMinHam at hm
    have hw := winner_mem hm
    obtain ⟨s', hs', hlen', _⟩ := mem_hamDict hw
    exact ⟨s', hs', hlen', lookupD_of_mem refs _ s' "" hnd hs'⟩
  constructor
  · intro m hm hcontra
    obtain ⟨s', hs', hlen', _⟩ := hwinner m hm
    rw [hcontra] at hs'
    have : s = s' := nodup_keys_val refs r s s' hnd hmem hs'
    rw [← this] at hlen'
    exact hlen hlen'.symm
  · cases hmin : mmMinHam q refs with
    | none => exact Or.inl (mmOnly_none _ _ _ _ _ hmin)
    | some m =>
      by_cases hcut : (m : Int) ≤ cutoff
      · obtain ⟨s', _, hlen', hlook⟩ := hwinner m hmin
        refine Or.inr ⟨m, rfl, hcut, ?_,
          mmOnly_resolved _ _ _ _ _ m hmin hcut⟩
        rw [hlook]
        exact hlen'.symm
      · exact Or.inl (mmOnly_cutoff _ _ _ _ _ m hmin hcut)

/-- Witness for C3 at a concrete reference set holding a shorter
reference nearer to the query than the same-length one. -/
theorem claim3_witness :
    (∀ m, mmMinHam "ACGT" [("short", "AC"), ("long", "TTTT")] = some m →
      mmMatchID "ACGT" [("short", "AC"), ("long", "TTTT")] m ≠ "short") ∧
    (alignAnnotateEachSeqMMonly "ACGT" [("short", "AC"), ("long", "TTTT")]
        1 [] 4 = naAnnot ∨
      ∃ m, mmMinHam "ACGT" [("short", "AC"), ("long", "TTTT")] = some m ∧
        (m : Int) ≤ 4 ∧
        (lookupD [("short", "AC"), ("long", "TTTT")]
          (mmMatchID "ACGT" [("short", "AC"), ("long", "TTTT")] m)
          "").length = "ACGT".length ∧
        alignAnnotateEachSeqMMonly "ACGT" [("short", "AC"), ("long", "TTTT")]
            1 [] 4 =
          makeAnnotation
            (mmMatchID "ACGT" [("short", "AC"), ("long", "TTTT")] m)
            (.int m) (.int 0) (.int 0)
            (findMismatches "ACGT"
              (lookupD [("short", "AC"), ("long", "TTTT")]
                (mmMatchID "ACGT" [("short", "AC"), ("long", "TTTT")] m) "")
              1
              (lookupD []
                (mmMatchID "ACGT" [("short", "AC"), ("long", "TTTT")] m) []))
            [] []) :=
  claim3_length_restriction "ACGT" [("short", "AC"), ("long", "TTTT")] 1 []
    4 "short" "AC" (by decide) (by decide) (by decide)

/-- C4: when several references attain the minimum (ungapped or
gapped) Hamming distance, the tie-warning condition holds and the
first reference in the candidate dictionary's iteration order is
selected; the winner is a function of the query, the reference set
and the ordering, hence identical on every run. -/
theorem claim4_tie_break (q : String) (refs : List (String × String))
    (startPos : Int) (refPos : List (String × List Int)) (cutoff : Int)
    (m : Nat) (id0 : String) (ids : List String)
    (al : List (String × (String × String))) (startPos2 : Int)
    (refPos2 : List (String × List Int)) (m2 : Nat) (id2 : String)
    (ids2 : List String)
    (h1 : mmMinHam q refs = some m)
    (h2 : minHamIDs (hamDict q refs) m = id0 :: ids)
    (h3 : ids ≠ [])
    (h4 : (m : Int) ≤ cutoff)
    (h5 : pyMin ((indelHamDict al).map Prod.snd) = some m2)
    (h6 : minHamIDs (indelHamDict al) m2 = id2 :: ids2)
    (h7 : ids2 ≠ []) :
    mmTieWarning q refs cutoff = true ∧
    alignAnnotateEachSeqMMonly q refs startPos refPos cutoff =
      makeAnnotation id0 (.int m) (.int 0) (.int 0)
        (findMismatches q (lookupD refs id0 "") startPos
          (lookupD refPos id0 [])) [] [] ∧
    indelTieWarning al = true ∧
    indelCore al startPos2 refPos2 =
      .ok ( makeAnnotation id2
        (.int (findMismatchesAndIndels (lookupD al id2 ("", "")).1
          (lookupD al id2 ("", "")).2 startPos2
          (lookupD refPos2 id2 [])).1.length)
        (.int (findMismatchesAndIndels (lookupD al id2 ("", "")).1
          (lookupD al id2 ("", "")).2 startPos2
          (lookupD refPos2 id2 [])).2.1.length)
        (.int (findMismatchesAndIndels (lookupD al id2 ("", "")).1
          (lookupD al id2 ("", "")).2 startPos2
          (lookupD refPos2 id2 [])).2.2.length)
        (findMismatchesAndIndels (lookupD al id2 ("", "")).1
          (lookupD al id2 ("", "")).2 startPos2
          (lookupD refPos2 id2 [])).1
        (findMismatchesAndIndels (lookupD al id2 ("", "")).1
          (lookupD al id2 ("", "")).2 startPos2
          (lookupD refPos2 id2 [])).2.1
        (findMismatchesAndIndels (lookupD al id2 ("", "")).1
          (lookupD al id2 ("", "")).2 startPos2
          (lookupD refPos2 id2 [])).2.2) := by
  have hmatch : mmMatchID q refs m = id0 := by
    unfold mmMatchID
    rw [h2]
    rfl
  have hmatch2 : (minHamIDs (indelHamDict al) m2).headD "" = id2 := by
    rw [h6]
    rfl
  refine ⟨?_, ?_, ?_, ?_⟩
  · unfold mmTieWarning
    simp only [h1, h2]
    cases ids with
    | nil => exact absurd rfl h3
    | cons b bs =>
      simp only [decide_eq_true_eq, List.length_cons]
      exact ⟨h4, by omega⟩
  · rw [mmOnly_resolved q refs startPos refPos cutoff m h1 h4, hmatch]
  · unfold indelTieWarning
    simp only [h5, h6]
    cases ids2 with
    | nil => exact absurd rfl h7
    | cons b bs =>
      simp only [decide_eq_true_eq, List.length_cons]
      omega
  · rw [indelCore_ok al startPos2 refPos2 m2 h5, hmatch2]

/-- Witness for C4 at a concrete two-way tie in each mode. -/
theorem claim4_witness :
    mmTieWarning "ACGT" [("r1", "ACGG"), ("r2", "ACGA")] 4 = true ∧
    alignAnnotateEachSeqMMonly "ACGT" [("r1", "ACGG"), ("r2", "ACGA")]
        1 [] 4 =
      makeAnnotation "r1" (.int 1) (.int 0) (.int 0)
        (findMismatches "ACGT"
          (lookupD [("r1", "ACGG"), ("r2", "ACGA")] "r1" "") 1
          (lookupD [] "r1" [])) [] [] ∧
    indelTieWarning [("a", ("AC", "AG")), ("b", ("AT", "AA"))] = true ∧
    indelCore [("a", ("AC", "AG")), ("b", ("AT", "AA"))] 1 [] =
      .ok ( makeAnnotation "a"
        (.int (findMismatchesAndIndels
          (lookupD [("a", ("AC", "AG")), ("b", ("AT", "AA"))] "a"
            ("", "")).1
          (lookupD [("a", ("AC", "AG")), ("b", ("AT", "AA"))] "a"
            ("", "")).2 1 (lookupD [] "a" [])).1.length)
        (.int (findMismatchesAndIndels
          (lookupD [("a", ("AC", "AG")), ("b", ("AT", "AA"))] "a"
            ("", "")).1
          (lookupD [("a", ("AC", "AG")), ("b", ("AT", "AA"))] "a"
            ("", "")).2 1 (lookupD [] "a" [])).2.1.length)
        (.int (findMismatchesAndIndels
          (lookupD [("a", ("AC", "AG")), ("b", ("AT", "AA"))] "a"
            ("", "")).1
          (lookupD [("a", ("AC", "AG")), ("b", ("AT", "AA"))] "a"
            ("", "")).2 1 (lookupD [] "a" [])).2.2.length)
        (findMismatchesAndIndels
          (lookupD [("a", ("AC", "AG")), ("b", ("AT", "AA"))] "a"
            ("", "")).1
          (lookupD [("a", ("AC", "AG")), ("b", ("AT", "AA"))] "a"
            ("", "")).2 1 (lookupD [] "a" [])).1
        (findMismatchesAndIndels
          (lookupD [("a", ("AC", "AG")), ("b", ("AT", "AA"))] "a"
            ("", "")).1
          (lookupD [("a", ("AC", "AG")), ("b", ("AT", "AA"))] "a"
            ("", "")).2 1 (lookupD [] "a" [])).2.1
        (findMismatchesAndIndels
          (lookupD [("a", ("AC", "AG")), ("b", ("AT", "AA"))] "a"
            ("", "")).1
          (lookupD [("a", ("AC", "AG")), ("b", ("AT", "AA"))] "a"
            ("", "")).2 1 (lookupD [] "a" [])).2.2) :=
  claim4_tie_break "ACGT" [("r1", "ACGG"), ("r2", "ACGA")] 1 [] 4 1 "r1"
    ["r2"] [("a", ("AC", "AG")), ("b", ("AT", "AA"))] 1 [] 1 "a" ["b"]
    rfl rfl (by decide) (by decide) rfl rfl (by decide)

/-- C6 counterexample: with an aligner failing on the second query of a
two-query batch in indel mode, the whole run surfaces the aligner
error — the first query's annotation is not produced and no
per-query `Unresolved` result exists. -/
theorem claim6_counterexample :
    mainAnnots badAlign ["AC", "GG"] [("r1", "AC")] 1 [] none true
      = .error "aligner failed" ∧
    ¬∃ anns, mainAnnots badAlign ["AC", "GG"] [("r1", "AC")] 1 [] none true
      = .ok anns := by
  refine ⟨rfl, ?_⟩
  intro h
  obtain ⟨anns, ha⟩ := h
  have h0 : mainAnnots badAlign ["AC", "GG"] [("r1", "AC")] 1 [] none true
      = .error "aligner failed" := rfl
  rw [h0] at ha
  exact Except.noConfusion ha

/-- C6 amended: an aligner exception on any query of an indel-mode
batch propagates out of the per-query matcher and aborts the whole
run — no list of annotations is produced, in either execution
branch. -/
theorem claim6_error_aborts_batch
    (align : String → String → Except String (String × String))
    (queries : List String) (q : String) (refs : List (String × String))
    (startPos : Int) (refPos : List (String × List Int))
    (MMcutoff : Option Int) (e : String)
    (hq : q ∈ queries)
    (he : alignAnnotateEachSeq align (pyUpper q) refs startPos refPos
      MMcutoff true = .error e) :
    (∃ e2, mainAnnots align queries refs startPos refPos MMcutoff true
        = .error e2 ∧
      mainAnnotsPar align queries refs startPos refPos MMcutoff true
        = .error e2) ∧
    ¬∃ anns, mainAnnots align queries refs startPos refPos MMcutoff true
      = .ok anns := by
  obtain ⟨e2, he2⟩ := exceptMapM_error
    (fun s => alignAnnotateEachSeq align (pyUpper s) refs startPos refPos
      MMcutoff true) q e queries hq he
  refine ⟨⟨e2, he2, he2⟩, ?_⟩
  intro h
  obtain ⟨anns, ha⟩ := h
  unfold mainAnnots at ha
  rw [he2] at ha
  exact Except.noConfusion ha

/-- Witness for C6's amended claim at a concrete failing batch. -/
theorem claim6_witness :
    (∃ e2, mainAnnots badAlign ["AC", "GG", "TT"] [("r1", "AC")] 1 []
        none true = .error e2 ∧
      mainAnnotsPar badAlign ["AC", "GG", "TT"] [("r1", "AC")] 1 []
        none true = .error e2) ∧
    ¬∃ anns, mainAnnots badAlign ["AC", "GG", "TT"] [("r1", "AC")] 1 []
      none true = .ok anns :=
  claim6_error_aborts_batch badAlign ["AC", "GG", "TT"] "GG"
    [("r1", "AC")] 1 [] none "aligner failed" (by decide) rfl

/-- C7: whenever the orchestrator completes, it yields exactly one
annotation per input query, the `i`-th annotation being the matcher's
result on the `i`-th (upper-cased) query, and the multiprocessing
branch collects the identical list. -/
theorem claim7_order_preserved
    (align : String → String → Except String (String × String))
    (queries : List String) (refs : List (String × String))
    (startPos : Int) (refPos : List (String × List Int))
    (MMcutoff : Option Int) (indelMode : Bool) (anns : List String)
    (h : mainAnnots align queries refs startPos refPos MMcutoff indelMode
      = .ok anns) :
    anns.length = queries.length ∧
    (∀ i, i < queries.length →
      alignAnnotateEachSeq align (pyUpper (queries.getD i "")) refs
        startPos refPos MMcutoff indelMode = .ok (anns.getD i "")) ∧
    mainAnnotsPar align queries refs startPos refPos MMcutoff indelMode
      = .ok anns := by
  obtain ⟨hlen, hidx⟩ := exceptMapM_ok
    (fun s => alignAnnotateEachSeq align (pyUpper s) refs startPos refPos
      MMcutoff indelMode) "" "" queries anns h
  exact ⟨hlen, hidx, h⟩

/-- Witness for C7 at a concrete two-query batch. -/
theorem claim7_witness :
    ( ["r1:0:0:0:::", "r1:3:0:0:2AC,3AG,4AT::"] : List String).length
        = (["acgt", "AAAA"] : List String).length ∧
    (∀ i, i < (["acgt", "AAAA"] : List String).length →
      alignAnnotateEachSeq okAlign
        (pyUpper ((["acgt", "AAAA"] : List String).getD i ""))
        [("r1", "ACGT")] 1 [] none false
        = .ok (( ["r1:0:0:0:::", "r1:3:0:0:2AC,3AG,4AT::"] :
            List String).getD i "")) ∧
    mainAnnotsPar okAlign ["acgt", "AAAA"] [("r1", "ACGT")] 1 [] none
      false = .ok ["r1:0:0:0:::", "r1:3:0:0:2AC,3AG,4AT::"] :=
  claim7_order_preserved okAlign ["acgt", "AAAA"] [("r1", "ACGT")] 1 []
    none false ["r1:0:0:0:::", "r1:3:0:0:2AC,3AG,4AT::"] rfl

end AlignAnnotate
